import Mathlib

/-!
Shallow embedding of the ts-telnet2 protocol engine (`src/index.ts`, `src/gmcp.ts`).

The repository's `index.ts` contains two historical snapshots of the module:

* snapshot A (the first copy): `Util.writeIAC` emits exactly 3 bytes, `Util.splitIAC`
  ends with an unconditional final push (`res.push(buffer.slice(temp))`), and the
  `Socket` has no responder machinery (plain `do`/`dont`/`will`/`wont`, with
  close/error re-emission wired in the constructor);
* snapshot B (the second copy): `Util.writeIAC` appends a trailing newline byte,
  `Util.splitIAC` has no final push, and the `Socket` carries the
  `responders` table with promise-based `setupResponder`/`do`/`dont`/`will`/`wont`.

Functions shared verbatim by both snapshots (`writeSB` stuffing, `isEOL`,
`stripEOL`, `parseSB`, and the body of the `splitIAC` scan) are embedded once in
`Telnet.Util`; the variant-specific pieces live in `Telnet.Util` (snapshot A) and
`Telnet.UtilB` (snapshot B).  Buffers are byte lists (`List Nat`), JS `buffer[i]`
reads are `l[i]?` (out-of-range reads give `none`, matching `undefined`), and the
event-emitter surface is reified as the `Event` inductive.
-/

namespace Telnet

/-- Negotiation enum: the escape / "interpret as command" marker byte. -/
abbrev IAC : Nat := 255
/-- Negotiation enum: offer to use an option. -/
abbrev WILL : Nat := 251
/-- Negotiation enum: refuse to use an option. -/
abbrev WONT : Nat := 252
/-- Negotiation enum: ask the peer to use an option. -/
abbrev DO : Nat := 253
/-- Negotiation enum: ask the peer to stop using an option. -/
abbrev DONT : Nat := 254
/-- Negotiation enum: sub-negotiation begin. -/
abbrev SB : Nat := 250
/-- Negotiation enum: sub-negotiation end. -/
abbrev SE : Nat := 240
/-- Options enum: the GMCP structured-messaging option id. -/
abbrev GMCP : Nat := 201

/-- Result of `Util.parseSB`: the option byte (JS `buffer[2]`, `undefined` when out of
range) and the raw interior slice. -/
structure ISBParse where
  option : Option Nat
  data : List Nat
deriving DecidableEq, Repr

namespace Util

/-- Embedding of snapshot A's `Util.writeIAC`: the fixed 3-byte sequence
`[IAC, negotiate, option]`. -/
def writeIAC (negotiate option : Nat) : List Nat :=
  [IAC, negotiate, option]

/-- The byte-stuffing loop inside `Util.writeSB`: every byte equal to 255 is doubled,
all other bytes pass through. -/
def stuffBytes : List Nat → List Nat
  | [] => []
  | b :: rest => if b = 255 then b :: b :: stuffBytes rest else b :: stuffBytes rest

/-- Embedding of snapshot A's `Util.writeSB` at the byte level (the TS function first
converts its string argument to a byte buffer `d`; we take that buffer directly):
`[IAC, SB, option] ++ stuffed payload ++ [IAC, SE]`. -/
def writeSB (option : Nat) (d : List Nat) : List Nat :=
  IAC :: SB :: option :: (stuffBytes d ++ [IAC, SE])

/-- Embedding of `Util.isEOL`: the last byte is the line-feed byte 10. -/
def isEOL (buffer : List Nat) : Bool :=
  buffer.getLast? == some 10

/-- Embedding of `Util.stripEOL`: drop a trailing CR+LF when the second-to-last byte
is 13, else drop only the last byte.  (JS `buffer[length-2]` on a short buffer reads
`undefined`, never equal to 13; the length guard encodes that.) -/
def stripEOL (buffer : List Nat) : List Nat :=
  if 2 ≤ buffer.length ∧ buffer[buffer.length - 2]? = some 13 then
    buffer.take (buffer.length - 2)
  else
    buffer.take (buffer.length - 1)

/-- Embedding of `Util.parseSB`: option byte at index 2, data = `slice(3, length-2)`
(the raw interior, with no un-stuffing applied). -/
def parseSB (buffer : List Nat) : ISBParse :=
  { option := buffer[2]?, data := (buffer.take (buffer.length - 2)).drop 3 }

/-- One iteration of the `splitIAC` scan (identical in both snapshots): the switch on
`buffer[i]` updating the pair `(temp, res)`.  Out-of-range neighbour reads
(`buffer[-1]`, `buffer[i+1]` past the end) are `none`, matching JS `undefined`,
which compares unequal to every byte value. -/
def iacStep (buffer : List Nat) (i : Nat) (acc : Nat × List (List Nat)) :
    Nat × List (List Nat) :=
  let temp := acc.1
  let res := acc.2
  if buffer[i]? = some IAC then
    if (i = 0 ∨ buffer[i - 1]? ≠ some IAC) ∧ buffer[i + 1]? ≠ some IAC then
      if buffer[i + 1]? ≠ some SE then
        if temp ≠ i then (i, res ++ [(buffer.take i).drop temp]) else acc
      else acc
    else acc
  else if buffer[i]? = some SE then
    if 0 < i ∧ buffer[i - 1]? = some IAC then
      (i + 1, res ++ [(buffer.take (i + 1)).drop temp])
    else acc
  else acc

/-- The `for (let i = 0; i < buffer.length; i++)` loop of `splitIAC`, iterated over an
explicit index list. -/
def iacLoop (buffer : List Nat) : List Nat → Nat × List (List Nat) → Nat × List (List Nat)
  | [], acc => acc
  | i :: is, acc => iacLoop buffer is (iacStep buffer i acc)

/-- The full scan of `splitIAC` over all indices, from `temp = 0`, `res = []`. -/
def splitIACcore (buffer : List Nat) : Nat × List (List Nat) :=
  iacLoop buffer (List.range buffer.length) (0, [])

/-- Embedding of snapshot A's `Util.splitIAC`: the scan followed by the unconditional
final `res.push(buffer.slice(temp))` ("Fix for single-IAC sequence buffers"). -/
def splitIAC (buffer : List Nat) : List (List Nat) :=
  let c := splitIACcore buffer
  c.2 ++ [buffer.drop c.1]

end Util

namespace UtilB

/-- Embedding of snapshot B's `Util.writeIAC`: the 3-byte sequence followed by a
newline byte. -/
def writeIAC (negotiate option : Nat) : List Nat :=
  [IAC, negotiate, option, 10]

/-- Embedding of snapshot B's `Util.splitIAC`: the same scan, with no final push. -/
def splitIAC (buffer : List Nat) : List (List Nat) :=
  (Util.splitIACcore buffer).2

end UtilB

/-- The observable event-emitter surface of the `Socket` classes, reified.
`resolved` records a pending-negotiation promise settling with its boolean. -/
inductive Event where
  | data (bytes : List Nat)
  | message (bytes : List Nat)
  | doEv (opt : Option Nat)
  | dontEv (opt : Option Nat)
  | willEv (opt : Option Nat)
  | wontEv (opt : Option Nat)
  | subneg (opt : Option Nat) (payload : List Nat)
  | gmcpRaw (payload : List Nat)
  | enabled (opt : Nat)
  | disabled (opt : Nat)
  | resolved (opt : Nat) (value : Bool)
  | unhandled (bytes : List Nat)
deriving DecidableEq, Repr

/-- JS truthiness of an `OptionMatrix<boolean>` entry: `undefined` and `false` are
falsy, `true` is truthy. -/
def truthy (v : Option Bool) : Bool :=
  v.getD false

/-- State of snapshot B's `Socket`: the inbound byte accumulator, the
`options` matrix (`none` = `undefined`) and the `responders` table.  A pending
responder closure is determined by the command byte `neg` it captured, so the
table stores that byte. -/
structure BState where
  buffer : List Nat
  options : Nat → Option Bool
  responders : Nat → Option Nat

/-- The option update performed by the responder closure in snapshot B's
`setupResponder` when the incoming command is `n` and the captured sent command is
`neg`: state is written only on the two accepting pairs (WILL answered by DO, DO
answered by WILL) and the two refusing pairs (WONT answered by DONT, DONT
answered by WONT); otherwise it is untouched. -/
def respUpdate (neg n : Nat) (cur : Option Bool) : Option Bool :=
  if n = DO then (if neg = WILL then some true else cur)
  else if n = DONT then (if neg = WONT then none else cur)
  else if n = WILL then (if neg = DO then some true else cur)
  else if n = WONT then (if neg = DONT then none else cur)
  else cur

/-- Embedding of the responder closure registered by snapshot B's `setupResponder`
for option `opt` with sent command `neg`, invoked with incoming command `n`:
update the option entry per `respUpdate`, emit `enabled`/`disabled` by the
resulting truthiness, clear the responder entry, and resolve the promise with
`options[option] || false`. -/
def runResponder (neg opt n : Nat) (st : BState) : BState × List Event :=
  let newVal := respUpdate neg n (st.options opt)
  let b := truthy newVal
  ({ st with
      options := fun o => if o = opt then newVal else st.options o,
      responders := fun o => if o = opt then none else st.responders o },
    [(if b then Event.enabled opt else Event.disabled opt), Event.resolved opt b])

/-- The shared shape of the four negotiation cases in snapshot B's inbound dispatch:
look up a responder under `buffer[2]`, run it with the incoming command `n` if
present, then emit the corresponding `do`/`dont`/`will`/`wont` event. -/
def negCase (st : BState) (frame : List Nat) (n : Nat) (mk : Option Nat → Event) :
    BState × List Event :=
  match frame[2]? with
  | some opt =>
    match st.responders opt with
    | some neg =>
      let r := runResponder neg opt n st
      (r.1, r.2 ++ [mk (some opt)])
    | none => (st, [mk (some opt)])
  | none => (st, [mk none])

/-- Embedding of the per-frame body of snapshot B's inbound `data` handler: emit the
raw `data` event, then dispatch on `buffer[1]`.  A structurally valid
sub-negotiation (ending in `IAC, SE`) is parsed with `parseSB` and surfaced; when
the GMCP option is truthy and the frame's option is GMCP the payload is handed to
the GMCP parser (reified here as the `gmcpRaw` event).  Unrecognised commands only
log ("Unhandled IAC event"), reified as `unhandled`. -/
def processFrameB (st : BState) (frame : List Nat) : BState × List Event :=
  let r : BState × List Event :=
    match frame[1]? with
    | some 253 => negCase st frame 253 Event.doEv
    | some 254 => negCase st frame 254 Event.dontEv
    | some 251 => negCase st frame 251 Event.willEv
    | some 252 => negCase st frame 252 Event.wontEv
    | some 250 =>
      if frame[frame.length - 2]? = some IAC ∧ frame[frame.length - 1]? = some SE then
        let parse := Util.parseSB frame
        (st, Event.subneg parse.option parse.data ::
          (if truthy (st.options GMCP) ∧ parse.option = some GMCP then
            [Event.gmcpRaw parse.data]
          else []))
      else (st, [])
    | _ => (st, [Event.unhandled frame])
  (r.1, Event.data frame :: r.2)

/-- Embedding of snapshot B's inbound `data` handler: append the chunk to the
accumulator; if it starts with a genuine IAC (first byte 255, second byte not 255)
split it and process every slice, clearing the accumulator inside the loop (so an
empty split leaves the accumulator untouched); else if it ends in a line feed emit
the stripped line; else retain the accumulator. -/
def feedB (st : BState) (input : List Nat) : BState × List Event :=
  let buf := st.buffer ++ input
  let st0 : BState := { st with buffer := buf }
  if buf.head? = some IAC ∧ buf[1]? ≠ some IAC then
    (UtilB.splitIAC buf).foldl
      (fun acc f =>
        let r := processFrameB acc.1 f
        ({ r.1 with buffer := [] }, acc.2 ++ r.2))
      (st0, [])
  else if Util.isEOL buf then
    ({ st0 with buffer := [] },
      [Event.data (Util.stripEOL buf), Event.message (Util.stripEOL buf)])
  else
    (st0, [])

/-- A sequence of inbound `data` deliveries, in arrival order, with the emitted
events concatenated. -/
def feedManyB : BState → List (List Nat) → BState × List Event
  | st, [] => (st, [])
  | st, c :: rest =>
    let r1 := feedB st c
    let r2 := feedManyB r1.1 rest
    (r2.1, r1.2 ++ r2.2)

/-- Embedding of snapshot B's `setupResponder` promise executor: if no responder is
registered for the option, register one capturing the sent command and succeed;
otherwise reject (returning `false`) and leave the table untouched. -/
def setupResponderB (st : BState) (neg opt : Nat) : BState × Bool :=
  match st.responders opt with
  | none =>
    ({ st with responders := fun o => if o = opt then some neg else st.responders o }, true)
  | some _ => (st, false)

/-- Outcome of snapshot B's `do`/`dont`/`will`/`wont` call as seen by the caller:
a still-pending promise, an immediately resolved boolean (the `response = true`
path), or an immediate rejection. -/
inductive DoOutcome where
  | pending
  | immediate (value : Bool)
  | rejected
deriving DecidableEq, Repr

/-- Embedding of snapshot B's `Socket.do`: with `response = false` it creates the
responder promise (which may already be rejected) and then writes the DO frame —
the write is not suppressed on rejection; with `response = true` it sets the
option and resolves immediately with `true`.  The written bytes are returned. -/
def doB (st : BState) (opt : Nat) (response : Bool) : BState × List Nat × DoOutcome :=
  if response then
    ({ st with options := fun o => if o = opt then some true else st.options o },
      UtilB.writeIAC 253 opt, DoOutcome.immediate true)
  else
    let r := setupResponderB st 253 opt
    (r.1, UtilB.writeIAC 253 opt, if r.2 then DoOutcome.pending else DoOutcome.rejected)

/-- Close processing of snapshot B's `Socket`: its constructor registers handlers
only for the raw socket's `connect`, `end` and `data` events — there is no `close`
or `error` wiring in that snapshot, so connection teardown runs no library code at
the telnet layer: no responder is invoked, cleared or rejected. -/
def closeB (st : BState) : BState × List Event :=
  (st, [])

/-- State of snapshot A's `Socket`: accumulator and options matrix (no responders). -/
structure AState where
  buffer : List Nat
  options : Nat → Option Bool

/-- Embedding of the per-frame body of snapshot A's inbound dispatch: emit the raw
`data` event, then emit the matching negotiation event (with JS `buffer[2]`, which
may be `undefined` on a short slice), or parse a structurally valid
sub-negotiation, or log an unhandled command. -/
def processFrameA (options : Nat → Option Bool) (frame : List Nat) : List Event :=
  Event.data frame ::
    match frame[1]? with
    | some 253 => [Event.doEv frame[2]?]
    | some 254 => [Event.dontEv frame[2]?]
    | some 251 => [Event.willEv frame[2]?]
    | some 252 => [Event.wontEv frame[2]?]
    | some 250 =>
      if frame[frame.length - 2]? = some IAC ∧ frame[frame.length - 1]? = some SE then
        let parse := Util.parseSB frame
        Event.subneg parse.option parse.data ::
          (if truthy (options GMCP) ∧ parse.option = some GMCP then
            [Event.gmcpRaw parse.data]
          else [])
      else []
    | _ => [Event.unhandled frame]

/-- The trailing per-`data`-event loop of snapshot A's handler: for every key in
`options`, truthy values are re-sent with `do` (which re-stores `true`) and falsy
ones with `dont` (which stores `undefined`); only outbound writes besides this
normalisation of `false` entries to `undefined`. -/
def optionsRefresh (o : Nat → Option Bool) : Nat → Option Bool :=
  fun k =>
    match o k with
    | some true => some true
    | some false => none
    | none => none

/-- Embedding of snapshot A's inbound `data` handler: same branch structure as
snapshot B (with snapshot A's `splitIAC`, whose final push makes the split of a
non-empty buffer always non-empty), followed by the options-refresh loop. -/
def feedA (st : AState) (input : List Nat) : AState × List Event :=
  let buf := st.buffer ++ input
  let r : AState × List Event :=
    if buf.head? = some IAC ∧ buf[1]? ≠ some IAC then
      let frames := Util.splitIAC buf
      ({ buffer := if frames.isEmpty then buf else [], options := st.options },
        (frames.map (processFrameA st.options)).flatten)
    else if Util.isEOL buf then
      ({ buffer := [], options := st.options },
        [Event.data (Util.stripEOL buf), Event.message (Util.stripEOL buf)])
    else
      ({ buffer := buf, options := st.options }, [])
  ({ r.1 with options := optionsRefresh r.1.options }, r.2)

/-- A GMCP message as produced by `parseGMCP`: the package path string (kept as the
undivided character sequence, exactly as the source returns it) and the parsed
JSON value. -/
structure IGMCP (α : Type) where
  package : List Char
  data : α
deriving DecidableEq

/-- JS `String.prototype.indexOf` for a single character: the index of the first
occurrence, or `none` (JS `-1`) when absent. -/
def indexOfChar (c : Char) : List Char → Option Nat
  | [] => none
  | x :: xs => if x = c then some 0 else (indexOfChar c xs).map (· + 1)

/-- Embedding of `parseGMCP` (`src/gmcp.ts`): find the first space; if present, the
package is everything before it and the rest is handed to `JSON.parse` (an
external JS builtin, abstracted as the `jsonParse` argument; a thrown parse error
propagates as the `Except.error`); if absent, return the whole payload as the
package with the empty object (`emptyObj`) as data. -/
def parseGMCP {α : Type} (jsonParse : List Char → Except String α) (emptyObj : α)
    (data : List Char) : Except String (IGMCP α) :=
  match indexOfChar ' ' data with
  | some offset =>
    (jsonParse (data.drop (offset + 1))).map (fun obj => ⟨data.take offset, obj⟩)
  | none => Except.ok ⟨data, emptyObj⟩

/-- The wire shape of a complete sub-negotiation frame with capability byte `cap`
and interior bytes `mid`. -/
def telFrame (cap : Nat) (mid : List Nat) : List Nat :=
  IAC :: SB :: cap :: (mid ++ [IAC, SE])

/-- The fresh per-connection state of snapshot B's `Socket`. -/
def stEmpty : BState :=
  { buffer := [], options := fun _ => none, responders := fun _ => none }

/-- Number of sub-negotiation frames surfaced in an event list. -/
def countSubneg (evs : List Event) : Nat :=
  (evs.filter fun e => match e with | Event.subneg _ _ => true | _ => false).length

/-- The (command, capability) pairs recovered by the negotiation dispatch from an
event list. -/
def decodedPairs (evs : List Event) : List (Nat × Option Nat) :=
  evs.filterMap fun e =>
    match e with
    | Event.doEv o => some (253, o)
    | Event.dontEv o => some (254, o)
    | Event.willEv o => some (251, o)
    | Event.wontEv o => some (252, o)
    | _ => none

/-- Modelled from the spec: the repository has no un-stuffing function anywhere on
its receive path; §4.1 specifies `unstuff` as the inverse of stuffing, collapsing
every doubled escape byte back to one. -/
def unstuff : List Nat → List Nat
  | [] => []
  | [b] => [b]
  | b :: c :: rest =>
    if b = 255 ∧ c = 255 then 255 :: unstuff rest else b :: unstuff (c :: rest)

/-- A snapshot-B state with one pending negotiation: a responder for option 201
registered by a `do` call (sent command 253). -/
def stPending : BState :=
  { buffer := [], options := fun _ => none,
    responders := fun o => if o = 201 then some 253 else none }

example : Util.splitIAC [255, 253, 201] = [[255, 253, 201]] := by decide

example : Util.writeSB 201 [67, 255, 68] = [255, 250, 201, 67, 255, 255, 68, 255, 240] := by
  decide

example : UtilB.splitIAC [255, 253, 201, 255, 253, 202] = [[255, 253, 201]] := by decide

/-! Basic lemmas about the `splitIAC` scan loop. -/

lemma iacLoop_append (buffer is js : List Nat) (acc : Nat × List (List Nat)) :
    Util.iacLoop buffer (is ++ js) acc = Util.iacLoop buffer js (Util.iacLoop buffer is acc) := by
  induction is generalizing acc with
  | nil => rfl
  | cons i is ih => simp [Util.iacLoop, ih]

lemma iacLoop_id (buffer is : List Nat) (acc : Nat × List (List Nat))
    (h : ∀ i ∈ is, Util.iacStep buffer i acc = acc) :
    Util.iacLoop buffer is acc = acc := by
  induction is with
  | nil => rfl
  | cons i is ih =>
    have hi := h i (by simp)
    simp only [Util.iacLoop, hi]
    exact ih fun j hj => h j (by simp [hj])

lemma iacStep_SE (buffer : List Nat) (i : Nat) (acc : Nat × List (List Nat))
    (h240 : buffer[i]? = some 240) (h0 : 0 < i) (hprev : buffer[i - 1]? = some 255) :
    Util.iacStep buffer i acc = (i + 1, acc.2 ++ [(buffer.take (i + 1)).drop acc.1]) := by
  simp [Util.iacStep, h240, h0, hprev]

/-! ### C10 — snapshot A's `splitIAC` appends a trailing empty slice after a
terminator-ending buffer -/

/-- Claim C10: for every input buffer whose last two bytes are the escape byte 255
followed by the sub-negotiation terminator 240, snapshot A's `splitIAC` (the
variant with the unconditional final push) returns, after the slice ending at the
terminator, a final element that is the empty buffer; the dispatch loop then
processes that empty slice as a frame (emitting a raw `data` event for it). -/
theorem splitIAC_trailing_empty :
    (∀ bs : List Nat, (Util.splitIAC (bs ++ [255, 240])).getLast? = some []) ∧
      Event.data [] ∈ (feedA { buffer := [], options := fun _ => none }
        [255, 250, 201, 255, 240]).2 := by
  constructor
  · intro bs
    have hlen : (bs ++ [255, 240]).length = bs.length + 1 + 1 := by simp
    have hlast : (bs ++ [255, 240])[bs.length + 1]? = some 240 := by
      rw [List.getElem?_append_right (by omega)]
      simp
    have hprev : (bs ++ [255, 240])[bs.length + 1 - 1]? = some 255 := by
      rw [List.getElem?_append_right (by omega)]
      simp
    unfold Util.splitIAC Util.splitIACcore
    rw [hlen, List.range_succ, iacLoop_append]
    set acc := Util.iacLoop (bs ++ [255, 240]) (List.range (bs.length + 1)) (0, []) with hacc
    have hstep : Util.iacLoop (bs ++ [255, 240]) [bs.length + 1] acc
        = (bs.length + 2, acc.2 ++ [((bs ++ [255, 240]).take (bs.length + 2)).drop acc.1]) := by
      simp only [Util.iacLoop]
      rw [iacStep_SE _ _ _ hlast (by omega) hprev]
    rw [hstep]
    have hdrop : (bs ++ [255, 240]).drop (bs.length + 2) = [] := by
      apply List.drop_eq_nil_of_le
      omega
    simp [hdrop]
  · decide

/-! ### C7 — the capability byte 255 is treated as a frame boundary -/

/-- Claim C7 (refuted; the spec's position-not-value rule is the intent, the code a
slip): snapshot A's `splitIAC` splits the 3-byte negotiation frame
`writeIAC(DO, 255)` = `[255, 253, 255]` into the two slices `[255, 253]` and
`[255]`, treating the capability byte at position 2 as a new frame boundary
instead of yielding the single intact frame. -/
theorem splitIAC_cap255_breaks_frame :
    Util.splitIAC (Util.writeIAC 253 255) = [[255, 253], [255]] ∧
      Util.splitIAC (Util.writeIAC 253 255) ≠ [[255, 253, 255]] := by
  decide

/-! ### C4 — close processing never resolves a pending negotiation -/

/-- Claim C4 (refuted; the spec's cancellation-on-close rule is the intent, the code
a slip): evaluating the close processing of the responder-bearing `Socket` at a
state with a pending negotiation for option 201 shows the pending entry survives
teardown untouched and no `enabled`/`disabled`/`resolved` event is raised — the
promise created by the request is left to suspend forever. -/
theorem close_leaves_pending :
    (closeB stPending).1.responders 201 = some 253 ∧ (closeB stPending).2 = [] := by
  exact ⟨rfl, rfl⟩

/-! ### C1 — counterexample: a non-matching command still resolves the pending
entry -/

/-- Claim C1 (counterexample): with a pending negotiation for option 201 registered
by a `do` request (sent command 253 = DO), the arrival of the non-matching
counterpart DONT (254) does not leave the pending entry in place — the responder
fires anyway, clears the pending entry, raises a `disabled` notification and
resolves the promise with `false`. -/
theorem nonmatching_resolves_pending_cex :
    (processFrameB stPending [255, 254, 201]).1.responders 201 = none ∧
      (processFrameB stPending [255, 254, 201]).2
        = [Event.data [255, 254, 201], Event.disabled 201, Event.resolved 201 false,
            Event.dontEv (some 201)] := by
  decide

/-! ### C2 — counterexample: a feed boundary after the closing escape byte -/

/-- Claim C2 (counterexample): the complete sub-negotiation frame
`[255, 250, 201, 65, 255, 240]` fed as the two chunks `[255, 250, 201, 65, 255]`
and `[240]` yields zero `SubnegotiationFrame`s (not one), and the first feed —
whose bytes lack the terminator — flushes the accumulator instead of retaining
it: the scan treats the closing escape byte at the end of the first chunk as a
new frame boundary. -/
theorem subneg_split_boundary_cex :
    countSubneg (feedManyB stEmpty [[255, 250, 201, 65, 255], [240]]).2 = 0 ∧
      (feedB stEmpty [255, 250, 201, 65, 255]).1.buffer = [] := by
  decide

/-! ### C5 — counterexample: `parseSB` does not un-stuff -/

/-- Claim C5 (counterexample): for the payload `[255]` (containing the escape byte),
`parseSB (writeSB 201 [255])` returns the still-stuffed interior `[255, 255]`,
not the original payload — the receive-side decoding applies no un-stuffing. -/
theorem parseSB_writeSB_not_inverse_cex :
    (Util.parseSB (Util.writeSB 201 [255])).data = [255, 255] ∧
      (Util.parseSB (Util.writeSB 201 [255])).data ≠ [255] := by
  decide

/-! ### C6 — counterexample: a payload with no space does not fail -/

/-- Claim C6 (counterexample): on the payload `"Core.Hello"`, which contains no
space byte, `parseGMCP` does not fail with a decode error — it returns a message
whose package is the whole payload and whose data is the empty object, even when
the JSON parser would reject every input. -/
theorem parseGMCP_no_space_cex :
    parseGMCP (fun _ => Except.error "bad json") () "Core.Hello".toList
      = Except.ok ⟨"Core.Hello".toList, ()⟩ := by
  rfl

/-! ### C8 — counterexample: the round-trip fails at capability 255 -/

/-- Claim C8 (counterexample): encoding `(DO, 255)` with `writeIAC` and feeding the
bytes to snapshot A's receive path recovers the pair `(253, undefined)` — the
splitter breaks the frame at the capability byte, so the dispatched `do` event
carries no capability — rather than `(253, 255)`. -/
theorem negotiation_roundtrip_cap255_cex :
    decodedPairs (feedA { buffer := [], options := fun _ => none }
        (Util.writeIAC 253 255)).2 = [(253, none)] ∧
      decodedPairs (feedA { buffer := [], options := fun _ => none }
        (Util.writeIAC 253 255)).2 ≠ [(253, some 255)] := by
  decide

/-! Branch lemmas for snapshot A's feed. -/

lemma feedA_retain (st : AState) (input : List Nat)
    (h255 : (st.buffer ++ input).head? ≠ some 255)
    (hnl : (st.buffer ++ input).getLast? ≠ some 10) :
    feedA st input
      = ({ buffer := st.buffer ++ input, options := optionsRefresh st.options }, []) := by
  have h1 : ¬((st.buffer ++ input).head? = some 255 ∧ (st.buffer ++ input)[1]? ≠ some 255) :=
    fun h => h255 h.1
  have h2 : Util.isEOL (st.buffer ++ input) = false := by
    simp only [Util.isEOL, beq_eq_false_iff_ne, ne_eq]
    exact hnl
  simp only [feedA]
  rw [if_neg h1, h2]
  simp

lemma feedA_eol (st : AState) (input : List Nat)
    (h255 : (st.buffer ++ input).head? ≠ some 255)
    (hnl : (st.buffer ++ input).getLast? = some 10) :
    feedA st input
      = ({ buffer := [], options := optionsRefresh st.options },
          [Event.data (Util.stripEOL (st.buffer ++ input)),
            Event.message (Util.stripEOL (st.buffer ++ input))]) := by
  have h1 : ¬((st.buffer ++ input).head? = some 255 ∧ (st.buffer ++ input)[1]? ≠ some 255) :=
    fun h => h255 h.1
  have h2 : Util.isEOL (st.buffer ++ input) = true := by
    simp [Util.isEOL, hnl]
  simp only [feedA]
  rw [if_neg h1, h2]
  simp

/-! ### C9 — a data line split across two feeds yields exactly one frame -/

/-- Claim C9: feeding a data line split across two `feed` calls — where the first
chunk does not begin with the escape byte and lacks the line terminator, and the
concatenation ends with the line-feed byte — emits nothing on the first call and
retains the accumulator, then emits exactly one data frame (and its decoded
message) containing the terminator-stripped line on the second call, clearing the
accumulator. -/
theorem dataframe_split_feed (a b : List Nat) (opts : Nat → Option Bool)
    (ha : a ≠ []) (h255 : a.head? ≠ some 255) (hnl : a.getLast? ≠ some 10)
    (hend : (a ++ b).getLast? = some 10) :
    (feedA { buffer := [], options := opts } a).2 = [] ∧
      (feedA { buffer := [], options := opts } a).1.buffer = a ∧
      (feedA (feedA { buffer := [], options := opts } a).1 b).2
        = [Event.data (Util.stripEOL (a ++ b)), Event.message (Util.stripEOL (a ++ b))] ∧
      (feedA (feedA { buffer := [], options := opts } a).1 b).1.buffer = [] := by
  have h1 : feedA { buffer := [], options := opts } a
      = ({ buffer := a, options := optionsRefresh opts }, []) := by
    have := feedA_retain { buffer := [], options := opts } a
    simpa using this h255 hnl
  have hhead : (a ++ b).head? ≠ some 255 := by
    cases a with
    | nil => exact absurd rfl ha
    | cons c a' => simpa using h255
  have h2 : feedA { buffer := a, options := optionsRefresh opts } b
      = ({ buffer := [], options := optionsRefresh (optionsRefresh opts) },
          [Event.data (Util.stripEOL (a ++ b)), Event.message (Util.stripEOL (a ++ b))]) := by
    have := feedA_eol { buffer := a, options := optionsRefresh opts } b
    simpa using this hhead hend
  rw [h1]
  exact ⟨rfl, rfl, by rw [h2], by rw [h2]⟩

/-- Witness for C9 at the spec's example: `"hel"` then `"lo\n"` yields exactly the
one data frame `"hello"`. -/
theorem dataframe_split_feed_witness :
    (feedA (feedA { buffer := [], options := fun _ => (none : Option Bool) }
        [104, 101, 108]).1 [108, 111, 10]).2
      = [Event.data [104, 101, 108, 108, 111], Event.message [104, 101, 108, 108, 111]] := by
  have h := dataframe_split_feed [104, 101, 108] [108, 111, 10] (fun _ => none)
    (by decide) (by decide) (by decide) (by decide)
  rw [h.2.2.1]
  decide

/-! ### C8 — negotiation frame round-trip for capabilities below 255 -/

lemma splitIAC_single_neg (cmd c : Nat) (h255 : cmd ≠ 255) (h240 : cmd ≠ 240)
    (hc : c ≠ 255) :
    Util.splitIAC [255, cmd, c] = [[255, cmd, c]] := by
  have hr : List.range 3 = [0, 1, 2] := by decide
  have h0 : Util.iacStep [255, cmd, c] 0 (0, []) = (0, []) := by
    simp [Util.iacStep, h255, h240]
  have h1 : Util.iacStep [255, cmd, c] 1 (0, []) = (0, []) := by
    simp [Util.iacStep, h255, h240]
  have h2 : Util.iacStep [255, cmd, c] 2 (0, []) = (0, []) := by
    rcases eq_or_ne c 240 with rfl | hc240 <;> simp [Util.iacStep, h255, hc]
  unfold Util.splitIAC Util.splitIACcore
  simp only [List.length_cons, List.length_nil]
  rw [show (0 : Nat) + 1 + 1 + 1 = 3 from rfl, hr]
  simp [Util.iacLoop, h0, h1, h2]

/-- Claim C8 (amended to capabilities in [0, 254]): for every command in
{WILL, WONT, DO, DONT} and every capability `c ≤ 254`, `writeIAC` produces exactly
the 3 bytes `[255, cmd, c]`, and snapshot A's receive path recovers exactly the
pair `(cmd, c)` from those bytes. -/
theorem negotiation_roundtrip (cmd c : Nat) (opts : Nat → Option Bool)
    (hcmd : cmd = 251 ∨ cmd = 252 ∨ cmd = 253 ∨ cmd = 254) (hc : c ≤ 254) :
    Util.writeIAC cmd c = [255, cmd, c] ∧
      decodedPairs (feedA { buffer := [], options := opts } (Util.writeIAC cmd c)).2
        = [(cmd, some c)] := by
  have hc255 : c ≠ 255 := by omega
  have h255 : cmd ≠ 255 := by rcases hcmd with rfl | rfl | rfl | rfl <;> decide
  have h240 : cmd ≠ 240 := by rcases hcmd with rfl | rfl | rfl | rfl <;> decide
  have hsplit := splitIAC_single_neg cmd c h255 h240 hc255
  refine ⟨rfl, ?_⟩
  have hcond : (([] : List Nat) ++ [255, cmd, c]).head? = some IAC ∧
      (([] : List Nat) ++ [255, cmd, c])[1]? ≠ some IAC := by
    simp [h255]
  simp only [feedA, Util.writeIAC]
  rw [if_pos hcond]
  simp only [List.nil_append, hsplit]
  rcases hcmd with rfl | rfl | rfl | rfl <;>
    simp [processFrameA, decodedPairs]

/-- Witness for C8 at command DO and capability 201. -/
theorem negotiation_roundtrip_witness :
    decodedPairs (feedA { buffer := [], options := fun _ => (none : Option Bool) }
        (Util.writeIAC 253 201)).2 = [(253, some 201)] :=
  (negotiation_roundtrip 253 201 (fun _ => none) (by decide) (by decide)).2

/-! ### C5 — stuffing and the receive path -/

lemma stuffBytes_eq_nil {p : List Nat} (h : Util.stuffBytes p = []) : p = [] := by
  cases p with
  | nil => rfl
  | cons b rest =>
    by_cases hb : b = 255 <;> simp [Util.stuffBytes, hb] at h

lemma parseSB_writeSB (cap : Nat) (p : List Nat) :
    (Util.parseSB (Util.writeSB cap p)).data = Util.stuffBytes p := by
  unfold Util.parseSB Util.writeSB
  have hlen : (IAC :: SB :: cap :: (Util.stuffBytes p ++ [IAC, SE])).length - 2
      = (Util.stuffBytes p).length + 3 := by
    simp
  rw [hlen]
  rw [show (Util.stuffBytes p).length + 3 = ((Util.stuffBytes p).length + 2) + 1 from rfl]
  rw [List.take_succ_cons]
  rw [show (Util.stuffBytes p).length + 2 = ((Util.stuffBytes p).length + 1) + 1 from rfl]
  rw [List.take_succ_cons, List.take_succ_cons, List.take_left]
  simp

lemma unstuff_stuffBytes (p : List Nat) : unstuff (Util.stuffBytes p) = p := by
  induction p with
  | nil => rfl
  | cons b rest ih =>
    by_cases hb : b = 255
    · subst hb
      simp [Util.stuffBytes, unstuff, ih]
    · rcases hS : Util.stuffBytes rest with _ | ⟨c, S'⟩
      · have hrest : rest = [] := stuffBytes_eq_nil hS
        subst hrest
        simp [Util.stuffBytes, hb, unstuff]
      · have hx : unstuff (b :: c :: S') = b :: unstuff (c :: S') := by
          simp [unstuff, hb]
        have hstuff : Util.stuffBytes (b :: rest) = b :: Util.stuffBytes rest := by
          simp [Util.stuffBytes, hb]
        rw [hstuff, hS, hx, ← hS, ih]

/-- Claim C5 (amended): for payloads without the escape byte the
`writeSB`-then-`parseSB` round-trip restores the payload; in general `parseSB`
returns the still-stuffed interior (each 255 doubled by `writeSB`), and the
spec-level `unstuff` — absent from the repository's receive path — is what
restores the original payload, including when 255 is the first or last byte. -/
theorem stuff_unstuff_roundtrip (cap : Nat) (p : List Nat) :
    (255 ∉ p → (Util.parseSB (Util.writeSB cap p)).data = p) ∧
      (Util.parseSB (Util.writeSB cap p)).data = Util.stuffBytes p ∧
      unstuff (Util.stuffBytes p) = p := by
  refine ⟨?_, parseSB_writeSB cap p, unstuff_stuffBytes p⟩
  intro hmem
  rw [parseSB_writeSB]
  induction p with
  | nil => rfl
  | cons b rest ih =>
    have hb : b ≠ 255 := fun h => hmem (by simp [h])
    simp only [Util.stuffBytes, if_neg hb]
    rw [ih fun h => hmem (by simp [h])]

/-- Witness for C5 at capability 201 and the escape-free payload `[65]`. -/
theorem stuff_unstuff_roundtrip_witness :
    (Util.parseSB (Util.writeSB 201 [65])).data = [65] :=
  (stuff_unstuff_roundtrip 201 [65]).1 (by decide)

/-! ### C6 — GMCP decode: first space, undivided package, no-space fallback -/

lemma indexOfChar_not_mem (c : Char) (s : List Char) (h : c ∉ s) :
    indexOfChar c s = none := by
  induction s with
  | nil => rfl
  | cons x xs ih =>
    have hx : x ≠ c := fun hxc => h (by simp [hxc])
    simp [indexOfChar, hx, ih fun hm => h (by simp [hm])]

lemma indexOfChar_append (c : Char) (p rest : List Char) (h : c ∉ p) :
    indexOfChar c (p ++ c :: rest) = some p.length := by
  induction p with
  | nil => simp [indexOfChar]
  | cons x xs ih =>
    have hx : x ≠ c := fun hxc => h (by simp [hxc])
    simp [indexOfChar, hx, ih fun hm => h (by simp [hm])]

/-- Claim C6 (amended): `parseGMCP` finds the first space; everything before it is
returned as the package — kept as the single undivided dot-separated string, not
split into components — and everything after it is handed to the JSON parser,
whose failure propagates as the decode error; when the payload contains no space,
it does not fail but returns a message with the whole payload as package and the
empty object as data. -/
theorem parseGMCP_spec {α : Type} (jp : List Char → Except String α) (e : α) :
    (∀ s : List Char, ' ' ∉ s → parseGMCP jp e s = Except.ok ⟨s, e⟩) ∧
      (∀ p rest : List Char, ' ' ∉ p →
        parseGMCP jp e (p ++ ' ' :: rest) = (jp rest).map (fun o => ⟨p, o⟩)) := by
  constructor
  · intro s hs
    simp only [parseGMCP, indexOfChar_not_mem ' ' s hs]
  · intro p rest hp
    have hdrop : (p ++ ' ' :: rest).drop (p.length + 1) = rest := by
      rw [show p ++ ' ' :: rest = (p ++ [' ']) ++ rest by simp,
        show p.length + 1 = (p ++ [' ']).length by simp]
      exact List.drop_left _ _
    have htake : (p ++ ' ' :: rest).take p.length = p := List.take_left _ _
    simp only [parseGMCP, indexOfChar_append ' ' p rest hp, hdrop, htake]

/-- Witness for C6: a payload with a space decodes to the undivided package string
and the JSON remainder. -/
theorem parseGMCP_spec_witness :
    parseGMCP (fun s => Except.ok s) ([] : List Char)
        ("Core.Hello".toList ++ ' ' :: "1".toList)
      = Except.ok ⟨"Core.Hello".toList, "1".toList⟩ := by
  rw [(parseGMCP_spec (fun s => Except.ok s) ([] : List Char)).2
    "Core.Hello".toList "1".toList (by decide)]
  rfl

/-! ### C1 — how an incoming negotiation frame resolves a pending entry -/

/-- Claim C1 (amended): with a pending negotiation (registered responder) whose sent
command is `neg`, the arrival of the 3-byte negotiation frame `[255, n, cap]` for
any of the four commands `n` resolves the pending entry — not only the matching
counterpart: the capability state is set to enabled exactly on the two accepting
matches (WILL answered by DO, DO answered by WILL), cleared on the two refusing
matches (WONT answered by DONT, DONT answered by WONT), and left unchanged
otherwise; the pending entry is cleared in every case, and exactly one
`enabled`/`disabled` notification is raised together with the promise resolution
carrying the truthiness of the resulting state. -/
theorem responder_resolution_spec (st : BState) (cap neg n : Nat)
    (hn : n = 251 ∨ n = 252 ∨ n = 253 ∨ n = 254)
    (hneg : neg = 251 ∨ neg = 252 ∨ neg = 253 ∨ neg = 254)
    (hp : st.responders cap = some neg) :
    (processFrameB st [255, n, cap]).1.responders cap = none ∧
      (processFrameB st [255, n, cap]).1.options cap
        = (if (neg = 251 ∧ n = 253) ∨ (neg = 253 ∧ n = 251) then some true
           else if (neg = 252 ∧ n = 254) ∨ (neg = 254 ∧ n = 252) then none
           else st.options cap) ∧
      ((processFrameB st [255, n, cap]).2.count (Event.enabled cap)
          + (processFrameB st [255, n, cap]).2.count (Event.disabled cap) = 1) ∧
      Event.resolved cap (truthy ((processFrameB st [255, n, cap]).1.options cap))
        ∈ (processFrameB st [255, n, cap]).2 ∧
      (Event.enabled cap ∈ (processFrameB st [255, n, cap]).2
        ↔ truthy ((processFrameB st [255, n, cap]).1.options cap) = true) := by
  rcases hneg with rfl | rfl | rfl | rfl <;> rcases hn with rfl | rfl | rfl | rfl <;>
    simp [processFrameB, negCase, runResponder, respUpdate, hp, truthy] <;>
    cases h : (st.options cap).getD false <;> simp [h]

/-- Witness for C1: a WILL reply resolving a pending DO request for option 201. -/
theorem responder_resolution_spec_witness :
    (processFrameB stPending [255, 251, 201]).1.responders 201 = none :=
  (responder_resolution_spec stPending 201 253 251 (by decide) (by decide)
    (by decide)).1

/-! ### C3 — a duplicate request fails fast and the first still resolves -/

/-- Claim C3: issuing a `do` request for a capability with an existing pending
negotiation makes the call fail (the promise rejects), creates no new pending
entry, does not overwrite the existing one and leaves the state untouched (the
frame is still written); the first request still resolves normally — here, the
pending DO answered by the matching WILL clears the entry, enables the option and
resolves the promise with `true`. -/
theorem duplicate_request_rejected (st : BState) (opt : Nat)
    (hp : st.responders opt = some 253) :
    (doB st opt false).2.2 = DoOutcome.rejected ∧
      (doB st opt false).1 = st ∧
      (doB st opt false).2.1 = UtilB.writeIAC 253 opt ∧
      (processFrameB st [255, 251, opt]).1.responders opt = none ∧
      (processFrameB st [255, 251, opt]).1.options opt = some true ∧
      Event.resolved opt true ∈ (processFrameB st [255, 251, opt]).2 ∧
      Event.enabled opt ∈ (processFrameB st [255, 251, opt]).2 := by
  refine ⟨?_, ?_, ?_, ?_⟩
  · simp [doB, setupResponderB, hp]
  · simp [doB, setupResponderB, hp]
  · simp [doB, setupResponderB, hp]
  · simp [processFrameB, negCase, runResponder, respUpdate, hp, truthy]

/-- Witness for C3: two `do(201)` calls from a fresh connection; the second one is
rejected. -/
theorem duplicate_request_rejected_witness :
    (doB (doB stEmpty 201 false).1 201 false).2.2 = DoOutcome.rejected :=
  (duplicate_request_rejected (doB stEmpty 201 false).1 201 (by decide)).1

/-! ### C2 — feeding a complete sub-negotiation frame in chunks -/

section SubnegFeed

variable (cap : Nat) (mid : List Nat)

lemma tf_length : (telFrame cap mid).length = mid.length + 5 := by
  simp [telFrame]

lemma tf_get_succ3 (j : Nat) :
    (telFrame cap mid)[j + 3]? = (mid ++ [255, 240])[j]? := by
  show (255 :: 250 :: cap :: (mid ++ [255, 240]) : List Nat)[j + 3]? = _
  rw [show j + 3 = j + 2 + 1 by omega, List.getElem?_cons_succ,
    show j + 2 = j + 1 + 1 by omega, List.getElem?_cons_succ, List.getElem?_cons_succ]

lemma tf_get_close : (telFrame cap mid)[mid.length + 3]? = some 255 := by
  rw [tf_get_succ3, List.getElem?_append_right (le_refl _)]
  simp

lemma tf_get_end : (telFrame cap mid)[mid.length + 4]? = some 240 := by
  rw [show mid.length + 4 = (mid.length + 1) + 3 by omega, tf_get_succ3,
    List.getElem?_append_right (by omega)]
  simp

lemma tf_get_mid (j : Nat) (hj : j < mid.length) :
    ∃ b, (telFrame cap mid)[j + 3]? = some b ∧ b ∈ mid := by
  rw [tf_get_succ3, List.getElem?_append]
  rw [if_pos hj]
  exact ⟨mid[j], List.getElem?_eq_getElem hj, List.getElem_mem hj⟩

lemma tf_get_prevclose (hcap : cap ≠ 255) (hmid : ∀ b ∈ mid, b ≠ 255 ∧ b ≠ 240) :
    (telFrame cap mid)[mid.length + 2]? ≠ some 255 := by
  cases mid with
  | nil =>
    intro h
    exact hcap (by simpa [telFrame] using h)
  | cons x xs =>
    obtain ⟨b, hb, hbm⟩ := tf_get_mid cap (x :: xs) xs.length (by simp)
    rw [show (x :: xs).length + 2 = xs.length + 3 by simp] at *
    rw [hb]
    intro h
    exact ((hmid b hbm).1 (by simpa using h))

lemma iacStep_zero (buffer : List Nat) : Util.iacStep buffer 0 (0, []) = (0, []) := by
  simp only [Util.iacStep]
  split_ifs <;> simp_all

lemma tf_step_id (hcap : cap ≠ 255) (hmid : ∀ b ∈ mid, b ≠ 255 ∧ b ≠ 240)
    (m i : Nat) (him : i < m) (hiL : i ≤ mid.length + 3)
    (hm : m ≤ mid.length + 3 ∨ m = mid.length + 5) :
    Util.iacStep ((telFrame cap mid).take m) i (0, []) = (0, []) := by
  have hBi : ∀ j, j < m →
      ((telFrame cap mid).take m)[j]? = (telFrame cap mid)[j]? := by
    intro j hj
    rw [List.getElem?_take, if_pos hj]
  match i, him, hiL with
  | 0, _, _ => exact iacStep_zero _
  | 1, him, _ =>
    have hb : ((telFrame cap mid).take m)[1]? = some 250 := by
      rw [hBi 1 him]; simp [telFrame]
    simp [Util.iacStep, hb]
  | 2, him, _ =>
    by_cases h240 : cap = 240
    · subst h240
      have hb : ((telFrame 240 mid).take m)[2]? = some 240 := by
        rw [hBi 2 him]; simp [telFrame]
      have hb1 : ((telFrame 240 mid).take m)[1]? = some 250 := by
        rw [hBi 1 (by omega)]; simp [telFrame]
      simp [Util.iacStep, hb, hb1]
    · have hb : ((telFrame cap mid).take m)[2]? = some cap := by
        rw [hBi 2 him]; simp [telFrame]
      simp [Util.iacStep, hb, hcap, h240]
  | (j + 3), him, hiL =>
    rcases Nat.lt_or_ge j mid.length with hj | hj
    · obtain ⟨b, hb, hbm⟩ := tf_get_mid cap mid j hj
      obtain ⟨hb255, hb240⟩ := hmid b hbm
      have hB : ((telFrame cap mid).take m)[j + 3]? = some b := by
        rw [hBi _ him, hb]
      simp [Util.iacStep, hB, hb255, hb240]
    · have hj' : j = mid.length := by omega
      subst hj'
      have hmL : m = mid.length + 5 := by
        rcases hm with h | h
        · omega
        · exact h
      have hB : ((telFrame cap mid).take m)[mid.length + 3]? = some 255 := by
        rw [hBi _ him]; exact tf_get_close cap mid
      have hBn : ((telFrame cap mid).take m)[mid.length + 3 + 1]? = some 240 := by
        rw [hBi _ (by omega)]
        rw [show mid.length + 3 + 1 = mid.length + 4 by omega]
        exact tf_get_end cap mid
      have hBp : ((telFrame cap mid).take m)[mid.length + 3 - 1]? ≠ some 255 := by
        rw [hBi _ (by omega)]
        rw [show mid.length + 3 - 1 = mid.length + 2 by omega]
        exact tf_get_prevclose cap mid hcap hmid
      simp [Util.iacStep, hB, hBn, hBp]

lemma splitIACcore_short_take (hcap : cap ≠ 255) (hmid : ∀ b ∈ mid, b ≠ 255 ∧ b ≠ 240)
    (m : Nat) (hm : m ≤ mid.length + 3) :
    Util.splitIACcore ((telFrame cap mid).take m) = (0, []) := by
  unfold Util.splitIACcore
  have hlen : ((telFrame cap mid).take m).length = m := by
    rw [List.length_take, tf_length]
    omega
  rw [hlen]
  apply iacLoop_id
  intro i hi
  have him : i < m := List.mem_range.mp hi
  exact tf_step_id cap mid hcap hmid m i him (by omega) (Or.inl hm)

lemma splitIACcore_full (hcap : cap ≠ 255) (hmid : ∀ b ∈ mid, b ≠ 255 ∧ b ≠ 240) :
    Util.splitIACcore (telFrame cap mid) = (mid.length + 5, [telFrame cap mid]) := by
  unfold Util.splitIACcore
  rw [tf_length, show mid.length + 5 = (mid.length + 4) + 1 by omega, List.range_succ,
    iacLoop_append]
  have htake : (telFrame cap mid).take (mid.length + 5) = telFrame cap mid := by
    apply List.take_of_length_le
    rw [tf_length]
  have hid : Util.iacLoop (telFrame cap mid) (List.range (mid.length + 4)) (0, []) = (0, []) := by
    apply iacLoop_id
    intro i hi
    have him : i < mid.length + 4 := List.mem_range.mp hi
    have := tf_step_id cap mid hcap hmid (mid.length + 5) i (by omega) (by omega)
      (Or.inr rfl)
    rwa [htake] at this
  rw [hid]
  have hend : (telFrame cap mid)[mid.length + 4]? = some 240 := tf_get_end cap mid
  have hprev : (telFrame cap mid)[mid.length + 4 - 1]? = some 255 := by
    rw [show mid.length + 4 - 1 = mid.length + 3 by omega]
    exact tf_get_close cap mid
  simp only [Util.iacLoop]
  rw [iacStep_SE _ _ _ hend (by omega) hprev]
  rw [show mid.length + 4 + 1 = mid.length + 5 by omega, htake]
  simp

lemma splitIACB_short_take (hcap : cap ≠ 255) (hmid : ∀ b ∈ mid, b ≠ 255 ∧ b ≠ 240)
    (m : Nat) (hm : m ≤ mid.length + 3) :
    UtilB.splitIAC ((telFrame cap mid).take m) = [] := by
  unfold UtilB.splitIAC
  rw [splitIACcore_short_take cap mid hcap hmid m hm]

lemma splitIACB_full (hcap : cap ≠ 255) (hmid : ∀ b ∈ mid, b ≠ 255 ∧ b ≠ 240) :
    UtilB.splitIAC (telFrame cap mid) = [telFrame cap mid] := by
  unfold UtilB.splitIAC
  rw [splitIACcore_full cap mid hcap hmid]

lemma feedB_not_iac (st : BState) (input : List Nat)
    (hcond : ¬((st.buffer ++ input).head? = some IAC ∧ (st.buffer ++ input)[1]? ≠ some IAC))
    (heol : Util.isEOL (st.buffer ++ input) = false) :
    feedB st input = (⟨st.buffer ++ input, st.options, st.responders⟩, []) := by
  simp only [feedB]
  rw [if_neg hcond, heol]
  simp

lemma feedB_no_frames (st : BState) (input : List Nat)
    (hhead : (st.buffer ++ input).head? = some IAC)
    (h1 : (st.buffer ++ input)[1]? ≠ some IAC)
    (hsplit : UtilB.splitIAC (st.buffer ++ input) = []) :
    feedB st input = (⟨st.buffer ++ input, st.options, st.responders⟩, []) := by
  simp only [feedB]
  rw [if_pos ⟨hhead, h1⟩, hsplit]
  rfl

lemma feedB_single_frame (st : BState) (input f : List Nat)
    (hhead : (st.buffer ++ input).head? = some IAC)
    (h1 : (st.buffer ++ input)[1]? ≠ some IAC)
    (hsplit : UtilB.splitIAC (st.buffer ++ input) = [f]) :
    feedB st input
      = ({ (processFrameB ⟨st.buffer ++ input, st.options, st.responders⟩ f).1 with
            buffer := [] },
          (processFrameB ⟨st.buffer ++ input, st.options, st.responders⟩ f).2) := by
  simp only [feedB]
  rw [if_pos ⟨hhead, h1⟩, hsplit]
  simp [List.foldl]

lemma processFrameB_subneg (st : BState) :
    countSubneg (processFrameB st (telFrame cap mid)).2 = 1 := by
  have h1 : (telFrame cap mid)[1]? = some 250 := by simp [telFrame]
  have hv2 : (telFrame cap mid)[(telFrame cap mid).length - 2]? = some IAC := by
    rw [tf_length, show mid.length + 5 - 2 = mid.length + 3 by omega]
    exact tf_get_close cap mid
  have hv1 : (telFrame cap mid)[(telFrame cap mid).length - 1]? = some SE := by
    rw [tf_length, show mid.length + 5 - 1 = mid.length + 4 by omega]
    exact tf_get_end cap mid
  simp only [processFrameB, h1]
  rw [if_pos ⟨hv2, hv1⟩]
  by_cases hg : truthy (st.options GMCP)
      ∧ (Util.parseSB (telFrame cap mid)).option = some GMCP <;>
    simp [hg, countSubneg, List.filter]

lemma feedB_prefix_retain (hcap : cap ≠ 255) (hmid : ∀ b ∈ mid, b ≠ 255 ∧ b ≠ 240)
    (o : Nat → Option Bool) (r : Nat → Option Nat) (m m' : Nat) (c : List Nat)
    (hcat : (telFrame cap mid).take m ++ c = (telFrame cap mid).take m')
    (hm' : m' ≤ mid.length + 3) :
    feedB ⟨(telFrame cap mid).take m, o, r⟩ c
      = (⟨(telFrame cap mid).take m', o, r⟩, []) := by
  rcases Nat.eq_zero_or_pos m' with rfl | hpos
  · have hcat' : (telFrame cap mid).take m ++ c = [] := by simpa using hcat
    have hres := feedB_not_iac ⟨(telFrame cap mid).take m, o, r⟩ c
      (by show ¬(((telFrame cap mid).take m ++ c).head? = some IAC ∧ _); simp [hcat'])
      (by show Util.isEOL ((telFrame cap mid).take m ++ c) = false; simp [hcat', Util.isEOL])
    rw [hres]
    have : ((telFrame cap mid).take m ++ c) = (telFrame cap mid).take 0 := hcat
    exact congrArg (fun b => ((⟨b, o, r⟩ : BState), ([] : List Event))) this
  · have hhead : ((telFrame cap mid).take m').head? = some IAC := by
      cases m' with
      | zero => omega
      | succ k =>
        show ((255 :: 250 :: cap :: (mid ++ [255, 240]) : List Nat).take (k + 1)).head? = _
        rw [List.take_succ_cons]
        rfl
    have h1 : ((telFrame cap mid).take m')[1]? ≠ some IAC := by
      rw [List.getElem?_take]
      split
      · simp [telFrame]
      · simp
    have hsplit := splitIACB_short_take cap mid hcap hmid m' hm'
    have hres := feedB_no_frames ⟨(telFrame cap mid).take m, o, r⟩ c
      (by show ((telFrame cap mid).take m ++ c).head? = some IAC; rw [hcat]; exact hhead)
      (by show ¬((telFrame cap mid).take m ++ c)[1]? = some IAC; rw [hcat]; exact h1)
      (by show UtilB.splitIAC ((telFrame cap mid).take m ++ c) = []; rw [hcat]; exact hsplit)
    rw [hres]
    exact congrArg (fun b => ((⟨b, o, r⟩ : BState), ([] : List Event))) hcat

lemma feedB_complete (hcap : cap ≠ 255) (hmid : ∀ b ∈ mid, b ≠ 255 ∧ b ≠ 240)
    (o : Nat → Option Bool) (r : Nat → Option Nat) (m : Nat) (c : List Nat)
    (hcat : (telFrame cap mid).take m ++ c = telFrame cap mid) :
    (feedB ⟨(telFrame cap mid).take m, o, r⟩ c).1.buffer = [] ∧
      countSubneg (feedB ⟨(telFrame cap mid).take m, o, r⟩ c).2 = 1 := by
  have hhead : (telFrame cap mid).head? = some IAC := rfl
  have h1 : (telFrame cap mid)[1]? ≠ some IAC := by simp [telFrame]
  have hres := feedB_single_frame ⟨(telFrame cap mid).take m, o, r⟩ c (telFrame cap mid)
    (by show ((telFrame cap mid).take m ++ c).head? = some IAC; rw [hcat]; exact hhead)
    (by show ¬((telFrame cap mid).take m ++ c)[1]? = some IAC; rw [hcat]; exact h1)
    (by show UtilB.splitIAC ((telFrame cap mid).take m ++ c) = [telFrame cap mid]
        rw [hcat]; exact splitIACB_full cap mid hcap hmid)
  rw [hres]
  exact ⟨rfl, processFrameB_subneg cap mid _⟩

lemma feedMany_aux (hcap : cap ≠ 255) (hmid : ∀ b ∈ mid, b ≠ 255 ∧ b ≠ 240) :
    ∀ (chunks : List (List Nat)) (o : Nat → Option Bool) (r : Nat → Option Nat) (m : Nat),
      m ≤ mid.length + 3 →
      (telFrame cap mid).take m ++ chunks.flatten = telFrame cap mid →
      (∀ k, k < chunks.length → m + ((chunks.take k).flatten).length ≤ mid.length + 3) →
      countSubneg (feedManyB ⟨(telFrame cap mid).take m, o, r⟩ chunks).2 = 1 ∧
        (feedManyB ⟨(telFrame cap mid).take m, o, r⟩ chunks).1.buffer = [] ∧
        (∀ k, k < chunks.length →
          (feedManyB ⟨(telFrame cap mid).take m, o, r⟩ (chunks.take k)).1.buffer
            = (telFrame cap mid).take (m + ((chunks.take k).flatten).length))
  | [], o, r, m, hmle, hcat, _ => by
    exfalso
    have hcat' : (telFrame cap mid).take m = telFrame cap mid := by simpa using hcat
    have hlen := congrArg List.length hcat'
    rw [List.length_take, tf_length] at hlen
    omega
  | c :: rest, o, r, m, hmle, hcat, hbound => by
    have hassoc : ((telFrame cap mid).take m ++ c) ++ rest.flatten = telFrame cap mid := by
      rw [List.append_assoc]
      simpa using hcat
    have hmlen : ((telFrame cap mid).take m).length = m := by
      rw [List.length_take, tf_length]
      omega
    have hpre : (telFrame cap mid).take m ++ c = (telFrame cap mid).take (m + c.length) := by
      have h := List.take_left ((telFrame cap mid).take m ++ c) rest.flatten
      rw [hassoc, List.length_append, hmlen] at h
      exact h.symm
    cases rest with
    | nil =>
      have hfull : (telFrame cap mid).take m ++ c = telFrame cap mid := by
        simpa using hassoc
      have hc := feedB_complete cap mid hcap hmid o r m c hfull
      refine ⟨?_, ?_, ?_⟩
      · simp only [feedManyB, List.append_nil]
        exact hc.2
      · simp only [feedManyB]
        exact hc.1
      · intro k hk
        have hk0 : k = 0 := by simpa using hk
        subst hk0
        simp [feedManyB]
    | cons c2 rest' =>
      have hm' : m + c.length ≤ mid.length + 3 := by
        have h := hbound 1 (by simp)
        simpa using h
      have hstep := feedB_prefix_retain cap mid hcap hmid o r m (m + c.length) c hpre hm'
      have hcat' : (telFrame cap mid).take (m + c.length) ++ (c2 :: rest').flatten
          = telFrame cap mid := by
        rw [← hpre]
        exact hassoc
      have hbound' : ∀ k, k < (c2 :: rest').length →
          (m + c.length) + (((c2 :: rest').take k).flatten).length ≤ mid.length + 3 := by
        intro k hk
        have h := hbound (k + 1) (by simpa using Nat.succ_lt_succ hk)
        simp only [List.take_succ_cons, List.flatten_cons, List.length_append] at h
        omega
      obtain ⟨ih1, ih2, ih3⟩ := feedMany_aux hcap hmid (c2 :: rest') o r (m + c.length)
        hm' hcat' hbound'
      refine ⟨?_, ?_, ?_⟩
      · simp only [feedManyB]
        rw [hstep]
        simpa using ih1
      · simp only [feedManyB]
        rw [hstep]
        exact ih2
      · intro k hk
        cases k with
        | zero => simp [feedManyB]
        | succ j =>
          have hj : j < (c2 :: rest').length := by simpa using hk
          simp only [List.take_succ_cons, feedManyB]
          rw [hstep]
          have h := ih3 j hj
          simp only [feedManyB] at h ⊢
          rw [h]
          congr 1
          simp only [List.flatten_cons, List.length_append]
          omega

end SubnegFeed

/-- Claim C2 (amended): feeding a complete sub-negotiation frame — whose interior
contains neither the escape byte 255 nor the terminator byte 240 and whose
capability byte is not 255 — split across any sequence of `feed` calls in which no
intermediate cumulative prefix stops between the closing escape byte and the
terminator (every intermediate prefix is at least 2 bytes short of the full
frame), yields exactly one `SubnegotiationFrame` in total; every intermediate call
emits nothing and retains exactly the accumulated bytes, and the final call clears
the accumulator. -/
theorem subneg_feed_single_frame (cap : Nat) (mid : List Nat) (chunks : List (List Nat))
    (hcap : cap ≠ 255) (hmid : ∀ b ∈ mid, b ≠ 255 ∧ b ≠ 240)
    (hjoin : chunks.flatten = telFrame cap mid)
    (hbound : ∀ k, k < chunks.length →
      ((chunks.take k).flatten).length + 2 ≤ (telFrame cap mid).length) :
    countSubneg (feedManyB stEmpty chunks).2 = 1 ∧
      (feedManyB stEmpty chunks).1.buffer = [] ∧
      (∀ k, k < chunks.length →
        (feedManyB stEmpty (chunks.take k)).1.buffer = (chunks.take k).flatten) := by
  have hb' : ∀ k, k < chunks.length →
      0 + ((chunks.take k).flatten).length ≤ mid.length + 3 := by
    intro k hk
    have h := hbound k hk
    rw [tf_length] at h
    omega
  have hcat : (telFrame cap mid).take 0 ++ chunks.flatten = telFrame cap mid := by
    simpa using hjoin
  obtain ⟨h1, h2, h3⟩ := feedMany_aux cap mid hcap hmid chunks (fun _ => none)
    (fun _ => none) 0 (by omega) hcat hb'
  refine ⟨h1, h2, ?_⟩
  intro k hk
  have hCB : (telFrame cap mid).take (0 + ((chunks.take k).flatten).length)
      = (chunks.take k).flatten := by
    have h := List.take_left ((chunks.take k).flatten) ((chunks.drop k).flatten)
    rw [← List.flatten_append, List.take_append_drop, hjoin] at h
    rw [Nat.zero_add]
    exact h
  exact (h3 k hk).trans hCB

/-- Witness for C2 at the spec's three-way split of the frame
`[255, 250, 201, 72, 105, 255, 240]`. -/
theorem subneg_feed_single_frame_witness :
    countSubneg (feedManyB stEmpty [[255, 250, 201], [72, 105], [255, 240]]).2 = 1 :=
  (subneg_feed_single_frame 201 [72, 105] [[255, 250, 201], [72, 105], [255, 240]]
    (by decide) (by decide) (by decide) (by decide)).1

end Telnet
